import Mathlib

/-!
Verification of the voice-to-calendar pipeline: a shallow embedding of
`nlu_service.py` (model-fallback rotation and event extraction) and
`transcription.py` (chunk retry policy and chunked transcription),
with theorems settling the specification claims.
-/

set_option linter.unusedVariables false

/-! ## Python string primitives

Python `str` values are modelled as Lean `String`; `str.strip()` is modelled
as dropping leading and trailing whitespace characters from the underlying
character list, and `sep.join(xs)` as interleaving the separator. -/

/-- Whitespace test used by the model of Python `str.strip()`. -/
def isWS (c : Char) : Bool :=
  c = ' ' ∨ c = '\t' ∨ c = '\n' ∨ c = '\r'

/-- Strip leading and trailing whitespace from a character list. -/
def trimL (l : List Char) : List Char :=
  List.rdropWhile isWS (List.dropWhile isWS l)

/-- Model of Python `s.strip()`. -/
def pyStrip (s : String) : String :=
  ⟨trimL s.data⟩

/-- Model of Python `sep.join(xs)`. -/
def pyJoin (sep : String) : List String → String
  | [] => ""
  | [x] => x
  | x :: y :: xs => x ++ sep ++ pyJoin sep (y :: xs)

/-- Model of Python `pat in s` (substring containment). -/
def containsSub (s pat : String) : Bool :=
  (List.range (s.data.length + 1)).any fun i => pat.data.isPrefixOf (s.data.drop i)

namespace NLU

/-! ## Embedding of `nlu_service.py`

`NLUService.MODEL_PRIORITIES` and the rotation logic of
`NLUService._try_models_with_fallback` (lines 148-156): the attempt order
starts at the current (last successful) model and wraps around. -/

/-- Model of `NLUService.MODEL_PRIORITIES` (nlu_service.py lines 18-23). -/
def MODEL_PRIORITIES : List String :=
  ["gemini-2.5-flash", "gemini-1.5-flash", "gemini-1.5-pro", "gemini-pro"]

/-- The candidate order built by `_try_models_with_fallback`
(nlu_service.py lines 149-156), generalized over the priority list:
`MODEL_PRIORITIES[current_index:] + MODEL_PRIORITIES[:current_index]`
when a current model name is set, else the priority list itself. -/
def modelsToTry (priorities : List String) (modelName : Option String) : List String :=
  match modelName with
  | some name =>
    let currentIndex := if name ∈ priorities then priorities.indexOf name else 0
    priorities.drop currentIndex ++ priorities.take currentIndex
  | none => priorities

/-! ### Event extraction (`NLUService.extract_event_info`, lines 229-273)

The JSON value already parsed from the model response is embedded as `JVal`;
Python `datetime` objects that replace the `start_datetime` entry are a
further constructor.  `dateutil.parser.parse` is an external library and is
passed in as an oracle `parse : String → Option PyDateTime`; `None` models a
parse that raises.  `pytz` localization attaches the zone tag and keeps the
wall-clock value. -/

/-- A Python `datetime`: an abstract wall-clock instant (in seconds) plus an
optional timezone (`none` = naive). -/
structure PyDateTime where
  wall : Int
  tzinfo : Option String
  deriving DecidableEq, Repr

/-- Model of `self.timezone.localize(dt)`: attach the configured zone, keeping the
wall-clock value (local time, not UTC). -/
def localize (zone : String) (dt : PyDateTime) : PyDateTime :=
  { dt with tzinfo := some zone }

/-- Model of `dt + timedelta(days=n)`. -/
def addDays (dt : PyDateTime) (n : Int) : PyDateTime :=
  { dt with wall := dt.wall + n * 86400 }

/-- Model of `NLUService._get_current_datetime` (lines 83-85): `datetime.now(self.timezone)`,
always timezone-aware. -/
def currentDateTime (zone : String) (nowWall : Int) : PyDateTime :=
  ⟨nowWall, some zone⟩

/-- Values occurring in the parsed model response and in processed events. -/
inductive JVal where
  | jstr (s : String)
  | jint (n : Int)
  | jbool (b : Bool)
  | jnull
  | jlist (xs : List JVal)
  | jobj (fields : List (String × JVal))
  | jdt (dt : PyDateTime)

/-- Python dict lookup (`key in event` / `event[key]`), on the insertion-ordered
association list modelling a dict. -/
def getVal : List (String × JVal) → String → Option JVal
  | [], _ => none
  | (k', v) :: rest, k => if k' = k then some v else getVal rest k

/-- Python dict assignment `event[key] = v`: replace in place, else append. -/
def setKey : List (String × JVal) → String → JVal → List (String × JVal)
  | [], k, v => [(k, v)]
  | (k', v') :: rest, k, v =>
    if k' = k then (k, v) :: rest else (k', v') :: setKey rest k v

/-- Python `event.setdefault(key, v)`: insert at the end only when absent. -/
def setDefault (d : List (String × JVal)) (k : String) (v : JVal) : List (String × JVal) :=
  match getVal d k with
  | some _ => d
  | none => d ++ [(k, v)]

/-- Lines 248-259 of `nlu_service.py`: if the event has a `start_datetime`
entry, parse it with `dateutil.parser.parse`; attach the configured zone when
the result is naive; on any parse failure (including a non-string value, where
`parser.parse` raises) fall back to `now + 1 day`. -/
def normalizeStart (parse : String → Option PyDateTime) (zone : String) (nowWall : Int)
    (d : List (String × JVal)) : List (String × JVal) :=
  match getVal d "start_datetime" with
  | none => d
  | some (.jstr s) =>
    match parse s with
    | some dt =>
      setKey d "start_datetime" (.jdt (if dt.tzinfo = none then localize zone dt else dt))
    | none => setKey d "start_datetime" (.jdt (addDays (currentDateTime zone nowWall) 1))
  | some _ => setKey d "start_datetime" (.jdt (addDays (currentDateTime zone nowWall) 1))

/-- Lines 262-264: `event.setdefault("action", "create_event")`,
`event.setdefault("duration_minutes", 60)`, `event.setdefault("description", None)`. -/
def applyDefaults (d : List (String × JVal)) : List (String × JVal) :=
  setDefault (setDefault (setDefault d "action" (.jstr "create_event"))
    "duration_minutes" (.jint 60)) "description" .jnull

/-- Processing of one event dict (lines 247-264). -/
def processEvent (parse : String → Option PyDateTime) (zone : String) (nowWall : Int)
    (d : List (String × JVal)) : List (String × JVal) :=
  applyDefaults (normalizeStart parse zone nowWall d)

/-- The loop over batch members (lines 241-266): non-dict members are skipped
with a warning, dict members are processed and appended in order. -/
def processEvents (parse : String → Option PyDateTime) (zone : String) (nowWall : Int) :
    List JVal → List (List (String × JVal))
  | [] => []
  | .jobj d :: rest => processEvent parse zone nowWall d :: processEvents parse zone nowWall rest
  | _ :: rest => processEvents parse zone nowWall rest

/-- Model of `extract_event_info` from the parsed JSON value onward (lines 229-273):
a JSON array is the batch, a JSON object is a batch of one, any other shape
fails; then the member loop runs, and an empty survivor list fails. -/
def extractFromJson (parse : String → Option PyDateTime) (zone : String) (nowWall : Int)
    (result : JVal) : Except String (List (List (String × JVal))) :=
  match (match result with
         | .jlist xs => some xs
         | .jobj d => some [JVal.jobj d]
         | _ => none) with
  | none => .error "Не удалось обработать ответ от модели. Попробуйте сформулировать иначе."
  | some events =>
    match processEvents parse zone nowWall events with
    | [] => .error "Не удалось извлечь информацию о событиях. Попробуйте сформулировать иначе."
    | e :: es => .ok (e :: es)

end NLU

namespace Stt

/-! ## Embedding of `TranscriptionService._transcribe_chunk` (transcription.py lines 303-399)

Each attempt's provider answer is given by an oracle `resp : Nat → SttResponse`:
HTTP 200 with a `result` field, HTTP 200 without one (carrying the extracted
`error_message` / `error_code`), or a non-200 status with the extracted error
payload.  The run records the outcome, the number of attempts made, and the
backoff sleeps performed (in seconds). -/

/-- A provider answer to one transcription attempt. -/
inductive SttResponse where
  | ok (text : String)
  | okNoResult (errorMsg : String) (errorCode : Option String)
  | httpError (status : Nat) (errorMsg : String) (errorCode : Option String)

/-- The provider's internal-error code checked at lines 350 and 371. -/
def INTERNAL : String := "INTERNAL_SERVER_ERROR"

/-- Model of `error_msg or response.status` (line 357/362): Python `or` falls back to
the status when the message is falsy (empty). -/
def errText (status : Nat) (msg : String) : String :=
  if msg = "" then toString status else msg

/-- The text of the exception raised for a speech-recognition error
(`f"Ошибка распознавания речи: {...}"`). -/
def recErr (s : String) : String :=
  "Ошибка распознавания речи: " ++ s

/-- Outcome of a `_transcribe_chunk` run: result, attempts consumed, sleeps. -/
structure ChunkRun where
  result : Except String String
  attemptsMade : Nat
  sleeps : List Nat

/-- The attempt loop of `_transcribe_chunk` (lines 328-399), by remaining
attempts; the current attempt index is `maxRetries - remaining`.
A 500 status or (before the last attempt) an `INTERNAL_SERVER_ERROR` code
sleeps `(attempt + 1) * 2` seconds and continues (lines 350-358, 371-379);
other errors raise, and the handler at lines 387-394 re-raises unless this
is not the last attempt and the exception text contains
`INTERNAL_SERVER_ERROR`, in which case it also sleeps and continues.
After the loop the last recorded error is raised (lines 397-399). -/
def transcribeChunkGo (resp : Nat → SttResponse) (maxRetries : Nat) :
    Nat → Option String → ChunkRun
  | 0, lastError =>
    { result := .error (lastError.getD "Не удалось транскрибировать фрагмент после всех попыток"),
      attemptsMade := 0, sleeps := [] }
  | remaining + 1, lastError =>
    let attempt := maxRetries - (remaining + 1)
    let retryWith (msg : String) : ChunkRun :=
      let rest := transcribeChunkGo resp maxRetries remaining (some msg)
      { result := rest.result, attemptsMade := rest.attemptsMade + 1,
        sleeps := (attempt + 1) * 2 :: rest.sleeps }
    match resp attempt with
    | .ok text =>
      { result := .ok (pyStrip text), attemptsMade := 1, sleeps := [] }
    | .okNoResult msg code =>
      if code = some INTERNAL ∧ attempt < maxRetries - 1 then
        retryWith (recErr msg)
      else if attempt = maxRetries - 1 ∨ ¬ containsSub (recErr msg) INTERNAL then
        { result := .error (recErr msg), attemptsMade := 1, sleeps := [] }
      else
        retryWith (recErr msg)
    | .httpError status msg code =>
      if status = 500 ∨ (code = some INTERNAL ∧ attempt < maxRetries - 1) then
        retryWith (recErr (errText status msg))
      else if attempt = maxRetries - 1 ∨ ¬ containsSub (recErr (errText status msg)) INTERNAL then
        { result := .error (recErr (errText status msg)), attemptsMade := 1, sleeps := [] }
      else
        retryWith (recErr (errText status msg))

/-- Model of `_transcribe_chunk` with its attempt budget (`max_retries`, default 3). -/
def transcribeChunk (resp : Nat → SttResponse) (maxRetries : Nat) : ChunkRun :=
  transcribeChunkGo resp maxRetries maxRetries none

end Stt

namespace Voice

/-! ## Embedding of `TranscriptionService.transcribe_voice` (transcription.py lines 401-559)

File-system, ffmpeg and network effects are folded into an environment oracle:
the outcome of `_transcribe_chunk` on the whole file, and per chunk index the
outcome of `_split_audio_file`, the materialized chunk's byte size and
measured duration, and the outcome of `_transcribe_chunk` on the chunk.
Durations are rationals (Python floats modelled exactly). -/

/-- The limit `self.max_size = 1024 * 1024` (line 28). -/
def maxSize : Nat := 1024 * 1024

/-- The cap `MAX_CHUNK_DURATION = 25.0` (line 458). -/
def MAX_CHUNK_DURATION : ℚ := 25

/-- The `0.9` safety factor applied to `max_size` (line 454). -/
def safetyMargin : ℚ := 9 / 10

/-- Environment oracle for one `transcribe_voice` run. -/
structure VoiceEnv where
  single : Except String String
  splitOk : Nat → Bool
  chunkSize : Nat → Nat
  chunkDur : Nat → ℚ
  chunkText : Nat → Except String String

/-- Lines 419-423: when the measured duration is non-positive, fall back to
the conservative 10 KiB/second estimate from the file size. -/
def effDuration (fileSize : Nat) (measured : ℚ) : ℚ :=
  if measured ≤ 0 then (fileSize : ℚ) / (10 * 1024) else measured

/-- Lines 450-461: `bytes_per_second = file_size / total_duration`;
`chunk_duration_by_size = (max_size * 0.9) / bytes_per_second`;
`chunk_duration = min(chunk_duration_by_size, MAX_CHUNK_DURATION)`. -/
def chunkDurationOf (fileSize : Nat) (totalDuration : ℚ) : ℚ :=
  let bytesPerSecond := (fileSize : ℚ) / totalDuration
  let chunkDurationBySize := ((maxSize : ℚ) * safetyMargin) / bytesPerSecond
  min chunkDurationBySize MAX_CHUNK_DURATION

/-- Line 474: `num_chunks = int((total_duration / chunk_duration) + 1)`
(the argument is non-negative, so `int` is the floor). -/
def numChunks (totalDuration chunkDuration : ℚ) : Nat :=
  (⌊totalDuration / chunkDuration + 1⌋).toNat

/-- The body of one loop iteration (lines 487-536): skip the chunk when the
split fails, when the materialized chunk is still over the size limit, when
its duration is over 30 seconds, or when transcription raises; otherwise keep
its text when non-empty. -/
def chunkAttempt (env : VoiceEnv) (i : Nat) : Option String :=
  if env.splitOk i then
    if env.chunkSize i > maxSize then none
    else if env.chunkDur i > 30 then none
    else match env.chunkText i with
      | .ok t => if t = "" then none else some t
      | .error _ => none
  else none

/-- The chunk loop (lines 479-536): for each `i` below `num_chunks`, break
once `start_time = i * chunk_duration` reaches the total duration, else
record the window `(start_time, min chunk_duration (total - start))` and the
chunk attempt's contribution. -/
def voiceLoop (env : VoiceEnv) (totalDuration chunkDuration : ℚ) :
    Nat → Nat → List ((ℚ × ℚ) × Option String)
  | 0, _ => []
  | remaining + 1, i =>
    if totalDuration ≤ (i : ℚ) * chunkDuration then []
    else
      (((i : ℚ) * chunkDuration,
        min chunkDuration (totalDuration - (i : ℚ) * chunkDuration)),
       chunkAttempt env i) :: voiceLoop env totalDuration chunkDuration remaining (i + 1)

/-- The windows and per-chunk contributions produced by one chunked run. -/
def voiceEntries (env : VoiceEnv) (fileSize : Nat) (measured : ℚ) :
    List ((ℚ × ℚ) × Option String) :=
  let d1 := effDuration fileSize measured
  let d2 := if d1 ≤ 0 then (fileSize : ℚ) / (10 * 1024) else d1
  let c := chunkDurationOf fileSize d2
  voiceLoop env d2 c (numChunks d2 c) 0

/-- Model of `transcribe_voice` (lines 401-559).  Small-and-short files go through the
single-unit path (lines 426-435); otherwise the file is chunked, each chunk's
non-empty text collected in index order, and the results joined with single
spaces and stripped (lines 472-544); an empty collection raises (line 539). -/
def transcribeVoice (env : VoiceEnv) (fileSize : Nat) (measured : ℚ) :
    Except String String :=
  let d1 := effDuration fileSize measured
  if fileSize ≤ maxSize ∧ d1 ≤ 30 then
    match env.single with
    | .error e => .error e
    | .ok t =>
      if t = "" then .error "Не удалось распознать речь. Попробуйте записать сообщение еще раз."
      else .ok t
  else
    let texts := (voiceEntries env fileSize measured).filterMap (fun e => e.2)
    match texts with
    | [] => .error "Не удалось распознать ни одну часть аудиофайла"
    | t :: ts => .ok (pyStrip (pyJoin " " (t :: ts)))

/-- The time windows `(start_time, current_duration)` computed by the chunk
loop of one run. -/
def windows (env : VoiceEnv) (fileSize : Nat) (measured : ℚ) : List (ℚ × ℚ) :=
  (voiceEntries env fileSize measured).map Prod.fst

/-- The non-empty chunk texts collected by one run, in chunk-index order. -/
def chunkTexts (env : VoiceEnv) (fileSize : Nat) (measured : ℚ) : List String :=
  (voiceEntries env fileSize measured).filterMap (fun e => e.2)

/-- The start of window `j`: `j * chunk_duration`. -/
def winStart (fileSize : Nat) (totalDuration : ℚ) (j : Nat) : ℚ :=
  (j : ℚ) * chunkDurationOf fileSize totalDuration

/-- The length of window `j`: `min chunk_duration (total - start)`. -/
def winLen (fileSize : Nat) (totalDuration : ℚ) (j : Nat) : ℚ :=
  min (chunkDurationOf fileSize totalDuration)
    (totalDuration - (j : ℚ) * chunkDurationOf fileSize totalDuration)

end Voice

/-! ## Concrete fixtures used by witness and counterexample theorems -/

/-- A date parser oracle: `"naive"` parses to a naive instant, `"aware"` to an
aware one, everything else fails to parse. -/
def parseFix : String → Option NLU.PyDateTime :=
  fun s => if s = "naive" then some ⟨50, none⟩
    else if s = "aware" then some ⟨60, some "UTC"⟩
    else none

/-- A provider that always answers HTTP 500. -/
def resp500 : Nat → Stt.SttResponse :=
  fun _ => .httpError 500 "backend exploded" none

/-- A provider that always answers HTTP 503 with the internal-error code. -/
def respInternalCode : Nat → Stt.SttResponse :=
  fun _ => .httpError 503 "temporary glitch" (some "INTERNAL_SERVER_ERROR")

/-- A provider that always answers HTTP 200 without a `result` field, carrying
the internal-error code. -/
def respNoResult : Nat → Stt.SttResponse :=
  fun _ => .okNoResult "Неизвестная ошибка" (some "INTERNAL_SERVER_ERROR")

/-- A provider that answers HTTP 400 with a client-error code. -/
def respBad : Nat → Stt.SttResponse :=
  fun _ => .httpError 400 "bad audio format" (some "BAD_REQUEST")

/-- A provider that answers HTTP 403 with a non-retryable code whose message
text happens to contain the string `INTERNAL_SERVER_ERROR`. -/
def respSneaky : Nat → Stt.SttResponse :=
  fun _ => .httpError 403 "quota INTERNAL_SERVER_ERROR hit" (some "PERMISSION_DENIED")

/-- A chunked-run environment: three chunks, of which chunk 1 fails during
transcription and chunks 0 and 2 yield non-empty texts. -/
def envA : Voice.VoiceEnv where
  single := .ok "привет"
  splitOk := fun _ => true
  chunkSize := fun _ => 500000
  chunkDur := fun _ => 20
  chunkText := fun i => if i = 1 then .error "boom" else if i = 0 then .ok "раз" else .ok "три"

/-- An environment whose every chunk transcription fails. -/
def envFail : Voice.VoiceEnv where
  single := .error "down"
  splitOk := fun _ => true
  chunkSize := fun _ => 500000
  chunkDur := fun _ => 20
  chunkText := fun _ => .error "boom"

/-- An environment for the single-unit path. -/
def envSingle : Voice.VoiceEnv where
  single := .ok "короткий текст"
  splitOk := fun _ => true
  chunkSize := fun _ => 1000
  chunkDur := fun _ => 5
  chunkText := fun _ => .ok "x"

namespace NLU

/-! ### Dictionary lemmas for the event model -/

theorem getVal_setKey_self (d : List (String × JVal)) (k : String) (v : JVal) :
    getVal (setKey d k v) k = some v := by
  induction d with
  | nil => simp [setKey, getVal]
  | cons hd tl ih =>
    obtain ⟨k', v'⟩ := hd
    by_cases hk : k' = k
    · subst hk
      simp [setKey, getVal]
    · simp [setKey, getVal, hk, ih]

theorem getVal_setKey_other {d : List (String × JVal)} {k k0 : String} (v0 : JVal)
    (hne : k ≠ k0) : getVal (setKey d k0 v0) k = getVal d k := by
  have hne2 : ¬ k0 = k := fun hh => hne hh.symm
  induction d with
  | nil => simp [setKey, getVal, hne2]
  | cons hd tl ih =>
    obtain ⟨k', v'⟩ := hd
    by_cases hk : k' = k0
    · subst hk
      simp [setKey, getVal, hne2]
    · simp only [setKey, if_neg hk, getVal]
      by_cases hk2 : k' = k
      · simp [hk2]
      · simp [hk2, ih]

theorem getVal_append (d1 d2 : List (String × JVal)) (k : String) :
    getVal (d1 ++ d2) k
      = match getVal d1 k with
        | some v => some v
        | none => getVal d2 k := by
  induction d1 with
  | nil => simp [getVal]
  | cons hd tl ih =>
    obtain ⟨k', v'⟩ := hd
    by_cases hk : k' = k
    · simp [getVal, hk]
    · simp [getVal, hk, ih]

theorem setDefault_of_present {d : List (String × JVal)} {k0 : String} {w : JVal}
    (h : getVal d k0 = some w) (v0 : JVal) : setDefault d k0 v0 = d := by
  simp [setDefault, h]

theorem getVal_setDefault_absent {d : List (String × JVal)} {k0 : String}
    (h : getVal d k0 = none) (v0 : JVal) : getVal (setDefault d k0 v0) k0 = some v0 := by
  simp [setDefault, h, getVal_append, getVal]

theorem getVal_setDefault_other {d : List (String × JVal)} {k k0 : String} (v0 : JVal)
    (hne : k ≠ k0) : getVal (setDefault d k0 v0) k = getVal d k := by
  unfold setDefault
  cases h : getVal d k0 with
  | some w => rfl
  | none =>
    have hne2 : ¬ k0 = k := fun hh => hne hh.symm
    rw [getVal_append]
    cases h2 : getVal d k with
    | some v => rfl
    | none => simp [h2, getVal, hne2]

theorem getVal_setDefault_some {d : List (String × JVal)} {k k0 : String} {v : JVal}
    (h : getVal d k = some v) (v0 : JVal) : getVal (setDefault d k0 v0) k = some v := by
  by_cases hk : k = k0
  · subst hk
    rw [setDefault_of_present h v0, h]
  · rw [getVal_setDefault_other v0 hk, h]

theorem getVal_normalizeStart_other (parse : String → Option PyDateTime) (zone : String)
    (nowWall : Int) (d : List (String × JVal)) {k : String} (hne : k ≠ "start_datetime") :
    getVal (normalizeStart parse zone nowWall d) k = getVal d k := by
  unfold normalizeStart
  cases h : getVal d "start_datetime" with
  | none => rfl
  | some v =>
    cases v with
    | jstr s =>
      cases hp : parse s with
      | some dt => simp [hp, getVal_setKey_other _ hne]
      | none => simp [hp, getVal_setKey_other _ hne]
    | jint n => simp [getVal_setKey_other _ hne]
    | jbool b => simp [getVal_setKey_other _ hne]
    | jnull => simp [getVal_setKey_other _ hne]
    | jlist xs => simp [getVal_setKey_other _ hne]
    | jobj fields => simp [getVal_setKey_other _ hne]
    | jdt dt => simp [getVal_setKey_other _ hne]

theorem getVal_applyDefaults_start (d : List (String × JVal)) :
    getVal (applyDefaults d) "start_datetime" = getVal d "start_datetime" := by
  unfold applyDefaults
  rw [getVal_setDefault_other _ (by decide), getVal_setDefault_other _ (by decide),
    getVal_setDefault_other _ (by decide)]

/-- The per-member processing loop discards exactly the non-dict members and
processes the dict members in order. -/
theorem processEvents_eq_map (parse : String → Option PyDateTime) (zone : String)
    (nowWall : Int) (xs : List JVal) :
    processEvents parse zone nowWall xs
      = (xs.filterMap fun v => match v with | .jobj d => some d | _ => none).map
          (processEvent parse zone nowWall) := by
  induction xs with
  | nil => rfl
  | cons hd tl ih =>
    cases hd with
    | jobj d => simpa [processEvents] using ih
    | jstr s => simpa [processEvents] using ih
    | jint n => simpa [processEvents] using ih
    | jbool b => simpa [processEvents] using ih
    | jnull => simpa [processEvents] using ih
    | jlist ys => simpa [processEvents] using ih
    | jdt dt => simpa [processEvents] using ih

theorem mem_processEvents (parse : String → Option PyDateTime) (zone : String)
    (nowWall : Int) {xs : List JVal} {e : List (String × JVal)}
    (h : e ∈ processEvents parse zone nowWall xs) :
    ∃ d, e = processEvent parse zone nowWall d := by
  rw [processEvents_eq_map] at h
  obtain ⟨d, _, hd⟩ := List.mem_map.1 h
  exact ⟨d, hd.symm⟩

end NLU

/-! ## Claim C1: model fallback attempt order -/

/-- C1. For every priority list and every last-known-good candidate in it, the
attempt order built by `_try_models_with_fallback` is the priority list rotated
to start at that candidate (so it begins with the candidate, keeps all
candidates, and proceeds in priority order wrapping around); with no
last-known-good candidate the order is the priority list itself; concretely,
`[A, B, C]` with last-good `B` gives `[B, C, A]`. -/
theorem c1_fallback_rotation (priorities : List String) (name : String)
    (h : name ∈ priorities) :
    NLU.modelsToTry priorities (some name) = priorities.rotate (priorities.indexOf name) ∧
    (NLU.modelsToTry priorities (some name))[0]? = some name ∧
    List.Perm (NLU.modelsToTry priorities (some name)) priorities ∧
    (∀ l : List String, NLU.modelsToTry l none = l) ∧
    NLU.modelsToTry ["A", "B", "C"] (some "B") = ["B", "C", "A"] := by
  have hlt : priorities.indexOf name < priorities.length := List.indexOf_lt_length.2 h
  have hrot : NLU.modelsToTry priorities (some name)
      = priorities.rotate (priorities.indexOf name) := by
    rw [List.rotate_eq_drop_append_take hlt.le]
    simp [NLU.modelsToTry, h]
  refine ⟨hrot, ?_, ?_, fun l => rfl, by decide⟩
  · rw [hrot, List.rotate_eq_drop_append_take hlt.le]
    rw [List.getElem?_append_left (by simpa using hlt)]
    simpa using List.getElem?_indexOf h
  · rw [hrot]
    exact priorities.rotate_perm _

/-- Witness for C1 at the concrete priority list of `nlu_service.py` with
last-good `"gemini-1.5-pro"`. -/
theorem c1_fallback_rotation_witness :
    "gemini-1.5-pro" ∈ NLU.MODEL_PRIORITIES ∧
    (NLU.modelsToTry NLU.MODEL_PRIORITIES (some "gemini-1.5-pro")
        = NLU.MODEL_PRIORITIES.rotate (NLU.MODEL_PRIORITIES.indexOf "gemini-1.5-pro") ∧
      (NLU.modelsToTry NLU.MODEL_PRIORITIES (some "gemini-1.5-pro"))[0]?
        = some "gemini-1.5-pro" ∧
      List.Perm (NLU.modelsToTry NLU.MODEL_PRIORITIES (some "gemini-1.5-pro")) NLU.MODEL_PRIORITIES ∧
      (∀ l : List String, NLU.modelsToTry l none = l) ∧
      NLU.modelsToTry ["A", "B", "C"] (some "B") = ["B", "C", "A"]) :=
  ⟨by decide, c1_fallback_rotation NLU.MODEL_PRIORITIES "gemini-1.5-pro" (by decide)⟩

/-! ## Claim C7: single JSON object, batch of one, defaults -/

/-- C7. A model response parsing to a single JSON object yields a batch of
exactly one record; in every processed record the missing fields are
defaulted (`action` to `"create_event"`, `duration_minutes` to `60`,
`description` to null/absent), and every field other than the normalized
`start_datetime` keeps the value given in the response (in particular the
defaults never overwrite present fields). -/
theorem c7_single_object_defaults (parse : String → Option NLU.PyDateTime) (zone : String)
    (nowWall : Int) (d : List (String × NLU.JVal)) :
    NLU.extractFromJson parse zone nowWall (.jobj d)
        = .ok [NLU.processEvent parse zone nowWall d] ∧
    (NLU.getVal d "action" = none →
      NLU.getVal (NLU.processEvent parse zone nowWall d) "action"
        = some (.jstr "create_event")) ∧
    (NLU.getVal d "duration_minutes" = none →
      NLU.getVal (NLU.processEvent parse zone nowWall d) "duration_minutes"
        = some (.jint 60)) ∧
    (NLU.getVal d "description" = none →
      NLU.getVal (NLU.processEvent parse zone nowWall d) "description" = some .jnull) ∧
    (∀ k v, k ≠ "start_datetime" → NLU.getVal d k = some v →
      NLU.getVal (NLU.processEvent parse zone nowWall d) k = some v) := by
  refine ⟨by simp [NLU.extractFromJson, NLU.processEvents], ?_, ?_, ?_, ?_⟩
  · intro h
    have h0 : NLU.getVal (NLU.normalizeStart parse zone nowWall d) "action" = none := by
      rw [NLU.getVal_normalizeStart_other parse zone nowWall d (by decide)]
      exact h
    have h1 := NLU.getVal_setDefault_absent h0 (NLU.JVal.jstr "create_event")
    exact NLU.getVal_setDefault_some (NLU.getVal_setDefault_some h1 _) _
  · intro h
    have h0 : NLU.getVal (NLU.normalizeStart parse zone nowWall d) "duration_minutes" = none := by
      rw [NLU.getVal_normalizeStart_other parse zone nowWall d (by decide)]
      exact h
    have h1 : NLU.getVal (NLU.setDefault (NLU.normalizeStart parse zone nowWall d) "action"
        (NLU.JVal.jstr "create_event")) "duration_minutes" = none := by
      rw [NLU.getVal_setDefault_other _ (by decide)]
      exact h0
    have h2 := NLU.getVal_setDefault_absent h1 (NLU.JVal.jint 60)
    exact NLU.getVal_setDefault_some h2 _
  · intro h
    have h0 : NLU.getVal (NLU.normalizeStart parse zone nowWall d) "description" = none := by
      rw [NLU.getVal_normalizeStart_other parse zone nowWall d (by decide)]
      exact h
    have h1 : NLU.getVal (NLU.setDefault (NLU.setDefault (NLU.normalizeStart parse zone nowWall d)
        "action" (NLU.JVal.jstr "create_event")) "duration_minutes" (NLU.JVal.jint 60))
        "description" = none := by
      rw [NLU.getVal_setDefault_other _ (by decide), NLU.getVal_setDefault_other _ (by decide)]
      exact h0
    exact NLU.getVal_setDefault_absent h1 NLU.JVal.jnull
  · intro k v hk hv
    have h0 : NLU.getVal (NLU.normalizeStart parse zone nowWall d) k = some v := by
      rw [NLU.getVal_normalizeStart_other parse zone nowWall d hk]
      exact hv
    exact NLU.getVal_setDefault_some (NLU.getVal_setDefault_some
      (NLU.getVal_setDefault_some h0 _) _) _

/-- Witness for C7 on a record with only `summary` and `start_datetime`. -/
theorem c7_single_object_defaults_witness :
    NLU.getVal [("summary", NLU.JVal.jstr "встреча"),
        ("start_datetime", NLU.JVal.jstr "naive")] "action" = none ∧
    NLU.getVal [("summary", NLU.JVal.jstr "встреча"),
        ("start_datetime", NLU.JVal.jstr "naive")] "summary" = some (.jstr "встреча") ∧
    NLU.extractFromJson parseFix "Europe/Moscow" 0
        (.jobj [("summary", NLU.JVal.jstr "встреча"), ("start_datetime", NLU.JVal.jstr "naive")])
      = .ok [NLU.processEvent parseFix "Europe/Moscow" 0
          [("summary", NLU.JVal.jstr "встреча"), ("start_datetime", NLU.JVal.jstr "naive")]] ∧
    NLU.getVal (NLU.processEvent parseFix "Europe/Moscow" 0
        [("summary", NLU.JVal.jstr "встреча"), ("start_datetime", NLU.JVal.jstr "naive")])
      "action" = some (.jstr "create_event") ∧
    NLU.getVal (NLU.processEvent parseFix "Europe/Moscow" 0
        [("summary", NLU.JVal.jstr "встреча"), ("start_datetime", NLU.JVal.jstr "naive")])
      "duration_minutes" = some (.jint 60) ∧
    NLU.getVal (NLU.processEvent parseFix "Europe/Moscow" 0
        [("summary", NLU.JVal.jstr "встреча"), ("start_datetime", NLU.JVal.jstr "naive")])
      "summary" = some (.jstr "встреча") :=
  ⟨rfl, rfl,
    (c7_single_object_defaults parseFix "Europe/Moscow" 0 _).1,
    (c7_single_object_defaults parseFix "Europe/Moscow" 0 _).2.1 rfl,
    (c7_single_object_defaults parseFix "Europe/Moscow" 0 _).2.2.1 rfl,
    (c7_single_object_defaults parseFix "Europe/Moscow" 0 _).2.2.2.2 "summary" _ (by decide) rfl⟩

/-! ## Claim C8: JSON array filtering -/

/-- C8. For a model response parsing to a JSON array, non-mapping elements are
discarded without aborting, well-formed elements are kept in their original
order, and the extraction fails exactly when zero elements survive. -/
theorem c8_array_filtering (parse : String → Option NLU.PyDateTime) (zone : String)
    (nowWall : Int) (xs : List NLU.JVal) :
    NLU.processEvents parse zone nowWall xs
        = (xs.filterMap fun v => match v with | NLU.JVal.jobj d => some d | _ => none).map
            (NLU.processEvent parse zone nowWall) ∧
    ((xs.filterMap fun v => match v with | NLU.JVal.jobj d => some d | _ => none) = [] →
      NLU.extractFromJson parse zone nowWall (.jlist xs)
        = .error "Не удалось извлечь информацию о событиях. Попробуйте сформулировать иначе.") ∧
    (∀ d ds,
      (xs.filterMap fun v => match v with | NLU.JVal.jobj d => some d | _ => none) = d :: ds →
      NLU.extractFromJson parse zone nowWall (.jlist xs)
        = .ok ((d :: ds).map (NLU.processEvent parse zone nowWall))) := by
  refine ⟨NLU.processEvents_eq_map parse zone nowWall xs, ?_, ?_⟩
  · intro h
    simp [NLU.extractFromJson, NLU.processEvents_eq_map, h]
  · intro d ds h
    simp [NLU.extractFromJson, NLU.processEvents_eq_map, h]

/-- Witness for C8: an array of two valid records and one malformed element
yields a batch of exactly two, in order. -/
theorem c8_array_filtering_witness :
    ([NLU.JVal.jobj [("summary", NLU.JVal.jstr "a")], NLU.JVal.jstr "oops",
        NLU.JVal.jobj [("summary", NLU.JVal.jstr "b")]].filterMap
      fun v => match v with | NLU.JVal.jobj d => some d | _ => none)
      = [[("summary", NLU.JVal.jstr "a")], [("summary", NLU.JVal.jstr "b")]] ∧
    NLU.extractFromJson parseFix "Europe/Moscow" 0
        (.jlist [NLU.JVal.jobj [("summary", NLU.JVal.jstr "a")], NLU.JVal.jstr "oops",
          NLU.JVal.jobj [("summary", NLU.JVal.jstr "b")]])
      = .ok [NLU.processEvent parseFix "Europe/Moscow" 0 [("summary", NLU.JVal.jstr "a")],
          NLU.processEvent parseFix "Europe/Moscow" 0 [("summary", NLU.JVal.jstr "b")]] :=
  ⟨rfl, (c8_array_filtering parseFix "Europe/Moscow" 0
    [NLU.JVal.jobj [("summary", NLU.JVal.jstr "a")], NLU.JVal.jstr "oops",
      NLU.JVal.jobj [("summary", NLU.JVal.jstr "b")]]).2.2
    [("summary", NLU.JVal.jstr "a")] [[("summary", NLU.JVal.jstr "b")]] rfl⟩

/-! ## Claim C9: datetime normalization never raises outward -/

/-- C9. For a surviving record whose `start_datetime` is the raw string `s`:
if `s` parses to a naive instant the configured zone is attached while the
wall-clock value is kept (local time, not UTC); if `s` parses to an aware
instant it is kept as is; and if parsing fails the start instant becomes
`now + 1 day` instead of an error (the processing function is total, so no
error can escape). -/
theorem c9_datetime_fallback (parse : String → Option NLU.PyDateTime) (zone : String)
    (nowWall : Int) (d : List (String × NLU.JVal)) (s : String)
    (hs : NLU.getVal d "start_datetime" = some (.jstr s)) :
    (∀ dt, parse s = some dt → dt.tzinfo = none →
      NLU.getVal (NLU.processEvent parse zone nowWall d) "start_datetime"
        = some (.jdt ⟨dt.wall, some zone⟩)) ∧
    (∀ dt z, parse s = some dt → dt.tzinfo = some z →
      NLU.getVal (NLU.processEvent parse zone nowWall d) "start_datetime" = some (.jdt dt)) ∧
    (parse s = none →
      NLU.getVal (NLU.processEvent parse zone nowWall d) "start_datetime"
        = some (.jdt (NLU.addDays (NLU.currentDateTime zone nowWall) 1))) := by
  refine ⟨?_, ?_, ?_⟩
  · intro dt hp htz
    obtain ⟨w, tz⟩ := dt
    simp only at htz
    subst htz
    simp only [NLU.processEvent, NLU.getVal_applyDefaults_start, NLU.normalizeStart, hs, hp,
      NLU.localize]
    simp [NLU.getVal_setKey_self]
  · intro dt z hp htz
    simp only [NLU.processEvent, NLU.getVal_applyDefaults_start, NLU.normalizeStart, hs, hp, htz]
    simp [NLU.getVal_setKey_self]
  · intro hp
    simp only [NLU.processEvent, NLU.getVal_applyDefaults_start, NLU.normalizeStart, hs, hp]
    exact NLU.getVal_setKey_self d _ _

/-- Witness for C9, exercising all three branches of the parse oracle. -/
theorem c9_datetime_fallback_witness :
    NLU.getVal [("start_datetime", NLU.JVal.jstr "naive")] "start_datetime"
        = some (.jstr "naive") ∧
    parseFix "naive" = some ⟨50, none⟩ ∧
    NLU.getVal (NLU.processEvent parseFix "Europe/Moscow" 0
        [("start_datetime", NLU.JVal.jstr "naive")]) "start_datetime"
      = some (.jdt ⟨50, some "Europe/Moscow"⟩) ∧
    NLU.getVal (NLU.processEvent parseFix "Europe/Moscow" 0
        [("start_datetime", NLU.JVal.jstr "aware")]) "start_datetime"
      = some (.jdt ⟨60, some "UTC"⟩) ∧
    NLU.getVal (NLU.processEvent parseFix "Europe/Moscow" 0
        [("start_datetime", NLU.JVal.jstr "мусор")]) "start_datetime"
      = some (.jdt (NLU.addDays (NLU.currentDateTime "Europe/Moscow" 0) 1)) :=
  ⟨rfl, rfl,
    (c9_datetime_fallback parseFix "Europe/Moscow" 0
      [("start_datetime", NLU.JVal.jstr "naive")] "naive" rfl).1 ⟨50, none⟩ rfl rfl,
    (c9_datetime_fallback parseFix "Europe/Moscow" 0
      [("start_datetime", NLU.JVal.jstr "aware")] "aware" rfl).2.1 ⟨60, some "UTC"⟩
      "UTC" rfl rfl,
    (c9_datetime_fallback parseFix "Europe/Moscow" 0
      [("start_datetime", NLU.JVal.jstr "мусор")] "мусор" rfl).2.2 rfl⟩

/-! ## Claim C10: timezone-aware start instants

The claim as stated is false: a well-formed mapping element that simply lacks
the `start_datetime` field survives filtering and leaves extraction with no
start instant at all (the code at nlu_service.py line 248 normalizes only
when the key is present and never inserts one). -/

/-- Counterexample to C10 as stated: a batch member with only a `summary`
field is returned without any start instant. -/
theorem c10_start_aware_counterexample :
    NLU.extractFromJson parseFix "Europe/Moscow" 0
        (.jobj [("summary", NLU.JVal.jstr "встреча")])
      = .ok [[("summary", NLU.JVal.jstr "встреча"), ("action", NLU.JVal.jstr "create_event"),
          ("duration_minutes", NLU.JVal.jint 60), ("description", NLU.JVal.jnull)]] ∧
    NLU.getVal [("summary", NLU.JVal.jstr "встреча"), ("action", NLU.JVal.jstr "create_event"),
        ("duration_minutes", NLU.JVal.jint 60), ("description", NLU.JVal.jnull)]
      "start_datetime" = none :=
  ⟨rfl, rfl⟩

/-- C10 (amended). Every record in every returned batch that carries a
`start_datetime` entry carries it as a timezone-aware instant — naive
timestamps never leave the normalizer; records whose response element lacked
the field are returned without any start instant. -/
theorem c10_start_aware_amended (parse : String → Option NLU.PyDateTime) (zone : String)
    (nowWall : Int) (res : NLU.JVal) (batch : List (List (String × NLU.JVal)))
    (e : List (String × NLU.JVal)) (v : NLU.JVal)
    (hok : NLU.extractFromJson parse zone nowWall res = .ok batch)
    (he : e ∈ batch) (hv : NLU.getVal e "start_datetime" = some v) :
    ∃ dt, v = NLU.JVal.jdt dt ∧ dt.tzinfo ≠ none := by
  have hmem : ∃ d, e = NLU.processEvent parse zone nowWall d := by
    cases res with
    | jlist xs =>
      simp only [NLU.extractFromJson] at hok
      cases hpe : NLU.processEvents parse zone nowWall xs with
      | nil =>
        simp only [hpe] at hok
        exact Except.noConfusion hok
      | cons a as =>
        simp only [hpe, Except.ok.injEq] at hok
        subst hok
        exact NLU.mem_processEvents parse zone nowWall (hpe ▸ he)
    | jobj d0 =>
      simp only [NLU.extractFromJson] at hok
      cases hpe : NLU.processEvents parse zone nowWall [NLU.JVal.jobj d0] with
      | nil =>
        simp only [hpe] at hok
        exact Except.noConfusion hok
      | cons a as =>
        simp only [hpe, Except.ok.injEq] at hok
        subst hok
        exact NLU.mem_processEvents parse zone nowWall (hpe ▸ he)
    | jstr s => simp [NLU.extractFromJson] at hok
    | jint n => simp [NLU.extractFromJson] at hok
    | jbool b => simp [NLU.extractFromJson] at hok
    | jnull => simp [NLU.extractFromJson] at hok
    | jdt dt => simp [NLU.extractFromJson] at hok
  obtain ⟨d, rfl⟩ := hmem
  rw [NLU.processEvent, NLU.getVal_applyDefaults_start] at hv
  unfold NLU.normalizeStart at hv
  cases hg : NLU.getVal d "start_datetime" with
  | none =>
    simp only [hg] at hv
    exact Option.noConfusion hv
  | some w =>
    simp only [hg] at hv
    cases w with
    | jstr s =>
      cases hp : parse s with
      | some dt =>
        simp only [hp] at hv
        rw [NLU.getVal_setKey_self] at hv
        cases htz : dt.tzinfo with
        | none =>
          simp only [htz, if_pos rfl, Option.some.injEq] at hv
          exact ⟨NLU.localize zone dt, hv.symm, by simp [NLU.localize]⟩
        | some z =>
          simp only [htz] at hv
          rw [if_neg (by simp)] at hv
          simp only [Option.some.injEq] at hv
          exact ⟨dt, hv.symm, by simp [htz]⟩
      | none =>
        simp only [hp] at hv
        rw [NLU.getVal_setKey_self] at hv
        simp only [Option.some.injEq] at hv
        exact ⟨_, hv.symm, by simp [NLU.addDays, NLU.currentDateTime]⟩
    | jint n =>
      rw [NLU.getVal_setKey_self] at hv
      simp only [Option.some.injEq] at hv
      exact ⟨_, hv.symm, by simp [NLU.addDays, NLU.currentDateTime]⟩
    | jbool b =>
      rw [NLU.getVal_setKey_self] at hv
      simp only [Option.some.injEq] at hv
      exact ⟨_, hv.symm, by simp [NLU.addDays, NLU.currentDateTime]⟩
    | jnull =>
      rw [NLU.getVal_setKey_self] at hv
      simp only [Option.some.injEq] at hv
      exact ⟨_, hv.symm, by simp [NLU.addDays, NLU.currentDateTime]⟩
    | jlist ys =>
      rw [NLU.getVal_setKey_self] at hv
      simp only [Option.some.injEq] at hv
      exact ⟨_, hv.symm, by simp [NLU.addDays, NLU.currentDateTime]⟩
    | jobj fs =>
      rw [NLU.getVal_setKey_self] at hv
      simp only [Option.some.injEq] at hv
      exact ⟨_, hv.symm, by simp [NLU.addDays, NLU.currentDateTime]⟩
    | jdt dt0 =>
      rw [NLU.getVal_setKey_self] at hv
      simp only [Option.some.injEq] at hv
      exact ⟨_, hv.symm, by simp [NLU.addDays, NLU.currentDateTime]⟩

/-- Witness for C10 (amended) on a parsed-naive record. -/
theorem c10_start_aware_amended_witness :
    NLU.extractFromJson parseFix "Europe/Moscow" 0
        (.jobj [("start_datetime", NLU.JVal.jstr "naive")])
      = .ok [NLU.processEvent parseFix "Europe/Moscow" 0
          [("start_datetime", NLU.JVal.jstr "naive")]] ∧
    NLU.processEvent parseFix "Europe/Moscow" 0 [("start_datetime", NLU.JVal.jstr "naive")]
      ∈ [NLU.processEvent parseFix "Europe/Moscow" 0 [("start_datetime", NLU.JVal.jstr "naive")]] ∧
    NLU.getVal (NLU.processEvent parseFix "Europe/Moscow" 0
        [("start_datetime", NLU.JVal.jstr "naive")]) "start_datetime"
      = some (.jdt ⟨50, some "Europe/Moscow"⟩) ∧
    ∃ dt, NLU.JVal.jdt (⟨50, some "Europe/Moscow"⟩ : NLU.PyDateTime) = NLU.JVal.jdt dt ∧
      dt.tzinfo ≠ none :=
  ⟨rfl, List.mem_singleton.2 rfl, rfl,
    c10_start_aware_amended parseFix "Europe/Moscow" 0
      (.jobj [("start_datetime", NLU.JVal.jstr "naive")])
      [NLU.processEvent parseFix "Europe/Moscow" 0 [("start_datetime", NLU.JVal.jstr "naive")]]
      (NLU.processEvent parseFix "Europe/Moscow" 0 [("start_datetime", NLU.JVal.jstr "naive")])
      (.jdt ⟨50, some "Europe/Moscow"⟩) rfl (List.mem_singleton.2 rfl) rfl⟩

/-! ## Claim C2: retry policy of `_transcribe_chunk` -/

theorem transcribeChunkGo_attempts_le (resp : Nat → Stt.SttResponse) (maxR : Nat) :
    ∀ rem lastE, (Stt.transcribeChunkGo resp maxR rem lastE).attemptsMade ≤ rem := by
  intro rem
  induction rem with
  | zero => intro lastE; simp [Stt.transcribeChunkGo]
  | succ n ih =>
    intro lastE
    cases hr : resp (maxR - (n + 1)) with
    | ok t => simp [Stt.transcribeChunkGo, hr]
    | okNoResult m c =>
      simp only [Stt.transcribeChunkGo, hr]
      split
      · exact Nat.succ_le_succ (ih _)
      · split
        · exact Nat.succ_le_succ (Nat.zero_le n)
        · exact Nat.succ_le_succ (ih _)
    | httpError st m c =>
      simp only [Stt.transcribeChunkGo, hr]
      split
      · exact Nat.succ_le_succ (ih _)
      · split
        · exact Nat.succ_le_succ (Nat.zero_le n)
        · exact Nat.succ_le_succ (ih _)

theorem transcribeChunkGo_attempts_pos (resp : Nat → Stt.SttResponse) (maxR : Nat)
    (n : Nat) (lastE : Option String) :
    0 < (Stt.transcribeChunkGo resp maxR (n + 1) lastE).attemptsMade := by
  cases hr : resp (maxR - (n + 1)) with
  | ok t => simp [Stt.transcribeChunkGo, hr]
  | okNoResult m c =>
    simp only [Stt.transcribeChunkGo, hr]
    split
    · exact Nat.succ_pos _
    · split
      · exact Nat.succ_pos _
      · exact Nat.succ_pos _
  | httpError st m c =>
    simp only [Stt.transcribeChunkGo, hr]
    split
    · exact Nat.succ_pos _
    · split
      · exact Nat.succ_pos _
      · exact Nat.succ_pos _

/-- C2 (amended). For every chunk request against the speech provider:
an HTTP 500 answer or the provider's explicit `INTERNAL_SERVER_ERROR` code
(whether on a non-200 status or inside a 200 body without a `result` field)
is retried up to the fixed cap of 3 attempts with backoff sleeps of
`(attempt_index + 1) * 2` seconds; any other error whose exception text does
not contain `INTERNAL_SERVER_ERROR` fails immediately with no retry and no
sleep; but — unlike the claim as stated — any other error whose message text
does contain `INTERNAL_SERVER_ERROR` is also retried with the same backoff
(the handler at transcription.py lines 387-394 matches on the exception
text); in all cases at most 3 attempts are made. -/
theorem c2_retry_policy :
    (∀ resp : Nat → Stt.SttResponse,
      (∀ i, i < 3 → ∃ m c, resp i = .httpError 500 m c) →
      (Stt.transcribeChunk resp 3).attemptsMade = 3 ∧
        (Stt.transcribeChunk resp 3).sleeps = [2, 4, 6] ∧
        ∃ e, (Stt.transcribeChunk resp 3).result = .error e) ∧
    (∀ resp : Nat → Stt.SttResponse,
      (∀ i, i < 3 → ∃ s m, s ≠ 500 ∧ resp i = .httpError s m (some Stt.INTERNAL)) →
      (Stt.transcribeChunk resp 3).attemptsMade = 3 ∧
        (Stt.transcribeChunk resp 3).sleeps = [2, 4] ∧
        ∃ e, (Stt.transcribeChunk resp 3).result = .error e) ∧
    (∀ resp : Nat → Stt.SttResponse,
      (∀ i, i < 3 → ∃ m, resp i = .okNoResult m (some Stt.INTERNAL)) →
      (Stt.transcribeChunk resp 3).attemptsMade = 3 ∧
        (Stt.transcribeChunk resp 3).sleeps = [2, 4] ∧
        ∃ e, (Stt.transcribeChunk resp 3).result = .error e) ∧
    (∀ (resp : Nat → Stt.SttResponse) (s : Nat) (m : String) (c : Option String),
      resp 0 = .httpError s m c → s ≠ 500 → c ≠ some Stt.INTERNAL →
      containsSub (Stt.recErr (Stt.errText s m)) Stt.INTERNAL = false →
      Stt.transcribeChunk resp 3
        = ⟨.error (Stt.recErr (Stt.errText s m)), 1, []⟩) ∧
    (∀ (resp : Nat → Stt.SttResponse) (s : Nat) (m : String) (c : Option String),
      resp 0 = .httpError s m c → s ≠ 500 → c ≠ some Stt.INTERNAL →
      containsSub (Stt.recErr (Stt.errText s m)) Stt.INTERNAL = true →
      2 ≤ (Stt.transcribeChunk resp 3).attemptsMade ∧
        (Stt.transcribeChunk resp 3).sleeps.head? = some 2) ∧
    (∀ resp : Nat → Stt.SttResponse, (Stt.transcribeChunk resp 3).attemptsMade ≤ 3) := by
  refine ⟨?_, ?_, ?_, ?_, ?_, ?_⟩
  · intro resp h
    obtain ⟨m0, c0, h0⟩ := h 0 (by omega)
    obtain ⟨m1, c1, h1⟩ := h 1 (by omega)
    obtain ⟨m2, c2, h2⟩ := h 2 (by omega)
    refine ⟨?_, ?_, ⟨Stt.recErr (Stt.errText 500 m2), ?_⟩⟩ <;>
      simp [Stt.transcribeChunk, Stt.transcribeChunkGo, h0, h1, h2]
  · intro resp h
    obtain ⟨s0, m0, hs0, h0⟩ := h 0 (by omega)
    obtain ⟨s1, m1, hs1, h1⟩ := h 1 (by omega)
    obtain ⟨s2, m2, hs2, h2⟩ := h 2 (by omega)
    refine ⟨?_, ?_, ⟨Stt.recErr (Stt.errText s2 m2), ?_⟩⟩ <;>
      simp [Stt.transcribeChunk, Stt.transcribeChunkGo, h0, h1, h2, hs2]
  · intro resp h
    obtain ⟨m0, h0⟩ := h 0 (by omega)
    obtain ⟨m1, h1⟩ := h 1 (by omega)
    obtain ⟨m2, h2⟩ := h 2 (by omega)
    refine ⟨?_, ?_, ⟨Stt.recErr m2, ?_⟩⟩ <;>
      simp [Stt.transcribeChunk, Stt.transcribeChunkGo, h0, h1, h2]
  · intro resp s m c h0 hs hc hsub
    simp [Stt.transcribeChunk, Stt.transcribeChunkGo, h0, hs, hc, hsub]
  · intro resp s m c h0 hs hc hsub
    have hpos : 0 < (Stt.transcribeChunkGo resp 3 2
        (some (Stt.recErr (Stt.errText s m)))).attemptsMade :=
      transcribeChunkGo_attempts_pos resp 3 1 _
    have hstep : (Stt.transcribeChunk resp 3).attemptsMade
        = (Stt.transcribeChunkGo resp 3 2
            (some (Stt.recErr (Stt.errText s m)))).attemptsMade + 1 := by
      rw [Stt.transcribeChunk, Stt.transcribeChunkGo]
      simp [h0, hs, hc, hsub]
    refine ⟨?_, ?_⟩
    · rw [hstep]
      omega
    · simp [Stt.transcribeChunk, Stt.transcribeChunkGo, h0, hs, hc, hsub]
  · intro resp
    exact transcribeChunkGo_attempts_le resp 3 3 none

/-- Witness for C2 (amended), exercising the 500 run, the internal-code runs,
the immediate failure, and the message-marker retry at concrete providers. -/
theorem c2_retry_policy_witness :
    ((∀ i, i < 3 → ∃ m c, resp500 i = .httpError 500 m c) ∧
      (Stt.transcribeChunk resp500 3).attemptsMade = 3 ∧
      (Stt.transcribeChunk resp500 3).sleeps = [2, 4, 6] ∧
      ∃ e, (Stt.transcribeChunk resp500 3).result = .error e) ∧
    ((∀ i, i < 3 → ∃ s m, s ≠ 500 ∧ respInternalCode i = .httpError s m (some Stt.INTERNAL)) ∧
      (Stt.transcribeChunk respInternalCode 3).attemptsMade = 3 ∧
      (Stt.transcribeChunk respInternalCode 3).sleeps = [2, 4]) ∧
    ((∀ i, i < 3 → ∃ m, respNoResult i = .okNoResult m (some Stt.INTERNAL)) ∧
      (Stt.transcribeChunk respNoResult 3).attemptsMade = 3) ∧
    (respBad 0 = .httpError 400 "bad audio format" (some "BAD_REQUEST") ∧
      containsSub (Stt.recErr (Stt.errText 400 "bad audio format")) Stt.INTERNAL = false ∧
      Stt.transcribeChunk respBad 3
        = ⟨.error (Stt.recErr (Stt.errText 400 "bad audio format")), 1, []⟩) := by
  have ha := c2_retry_policy.1 resp500 (fun i _ => ⟨"backend exploded", none, rfl⟩)
  have hb := c2_retry_policy.2.1 respInternalCode
    (fun i _ => ⟨503, "temporary glitch", by omega, rfl⟩)
  have hcw := c2_retry_policy.2.2.1 respNoResult (fun i _ => ⟨"Неизвестная ошибка", rfl⟩)
  have hd := c2_retry_policy.2.2.2.1 respBad 400 "bad audio format" (some "BAD_REQUEST")
    rfl (by omega) (by simp [Stt.INTERNAL]) (by decide)
  exact ⟨⟨fun i _ => ⟨"backend exploded", none, rfl⟩, ha.1, ha.2.1, ha.2.2⟩,
    ⟨fun i _ => ⟨503, "temporary glitch", by omega, rfl⟩, hb.1, hb.2.1⟩,
    ⟨fun i _ => ⟨"Неизвестная ошибка", rfl⟩, hcw.1⟩,
    ⟨rfl, by decide, hd⟩⟩

/-- Counterexample to C2 as stated: the provider answers HTTP 403 with a
non-retryable `PERMISSION_DENIED` code — an error that is neither HTTP 500
nor the explicit internal-error signal — yet, because its message text
contains `INTERNAL_SERVER_ERROR`, the code retries it twice with backoff
sleeps instead of failing immediately. -/
theorem c2_retry_policy_counterexample :
    respSneaky 0 = .httpError 403 "quota INTERNAL_SERVER_ERROR hit" (some "PERMISSION_DENIED") ∧
    (Stt.transcribeChunk respSneaky 3).attemptsMade = 3 ∧
    (Stt.transcribeChunk respSneaky 3).sleeps = [2, 4] := by
  refine ⟨rfl, ?_, ?_⟩ <;> decide

/-! ## String lemmas: stripping a space-joined list of stripped texts -/

/-- Edge condition under which `trimL` is the identity. -/
def noWSEdges (l : List Char) : Prop :=
  List.dropWhile isWS l = l ∧ List.rdropWhile isWS l = l

theorem trimL_of_noWSEdges {l : List Char} (h : noWSEdges l) : trimL l = l := by
  rw [trimL, h.1, h.2]

theorem noWSEdges_of_trimL {l : List Char} (h : trimL l = l) : noWSEdges l := by
  have h1 : (List.dropWhile isWS l).length ≤ l.length :=
    (List.dropWhile_suffix isWS).length_le
  have h2 : (trimL l).length ≤ (List.dropWhile isWS l).length :=
    (List.rdropWhile_prefix isWS (List.dropWhile isWS l)).length_le
  have hlen : (List.dropWhile isWS l).length = l.length := by
    rw [h] at h2
    omega
  have hdw : List.dropWhile isWS l = l :=
    (List.dropWhile_suffix isWS).eq_of_length hlen
  refine ⟨hdw, ?_⟩
  rw [trimL, hdw] at h
  exact h

theorem head_not_ws_of_dropWhile_eq {c : Char} {cs : List Char}
    (h : List.dropWhile isWS (c :: cs) = c :: cs) : isWS c = false := by
  cases hb : isWS c with
  | false => rfl
  | true =>
    rw [List.dropWhile_cons, if_pos hb] at h
    have := (List.dropWhile_suffix (l := cs) isWS).length_le
    rw [h] at this
    simp at this

theorem dropWhile_cons_of_not_ws {c : Char} (cs : List Char) (h : isWS c = false) :
    List.dropWhile isWS (c :: cs) = c :: cs := by
  rw [List.dropWhile_cons, if_neg (by simp [h])]

theorem noWSEdges_append_sep {a b : List Char} (ha : noWSEdges a) (hna : a ≠ [])
    (hb : noWSEdges b) (hnb : b ≠ []) : noWSEdges (a ++ ' ' :: b) := by
  obtain ⟨c, cs, rfl⟩ := List.exists_cons_of_ne_nil hna
  have hc : isWS c = false := head_not_ws_of_dropWhile_eq ha.1
  constructor
  · rw [List.cons_append]
    exact dropWhile_cons_of_not_ws _ hc
  · have hbrev : List.dropWhile isWS b.reverse = b.reverse := by
      have := hb.2
      rw [List.rdropWhile, List.reverse_eq_iff] at this
      exact this
    obtain ⟨r, rs, hr⟩ := List.exists_cons_of_ne_nil (l := b.reverse) (by simpa using hnb)
    rw [hr] at hbrev
    have hrws : isWS r = false := head_not_ws_of_dropWhile_eq hbrev
    rw [List.rdropWhile]
    have hrev : ((c :: cs) ++ ' ' :: b).reverse = r :: (rs ++ ' ' :: (c :: cs).reverse) := by
      rw [List.reverse_append, List.reverse_cons' ]
      simp [hr]
    rw [hrev, dropWhile_cons_of_not_ws _ hrws, ← hrev, List.reverse_reverse]

theorem pyJoin_data_cons (x y : String) (xs : List String) :
    (pyJoin " " (x :: y :: xs)).data = x.data ++ ' ' :: (pyJoin " " (y :: xs)).data := by
  show (x ++ " " ++ pyJoin " " (y :: xs)).data = _
  cases x with
  | mk xd =>
    cases hj : pyJoin " " (y :: xs) with
    | mk jd =>
      show (String.mk xd ++ String.mk [' '] ++ String.mk jd).data = _
      simp [String.instAppend, String.append]

theorem pyJoin_noWSEdges :
    ∀ xs : List String, xs ≠ [] → (∀ x ∈ xs, x.data ≠ [] ∧ noWSEdges x.data) →
      (pyJoin " " xs).data ≠ [] ∧ noWSEdges (pyJoin " " xs).data
  | [], h, _ => absurd rfl h
  | [x], _, hall => ⟨(hall x (by simp)).1, (hall x (by simp)).2⟩
  | x :: y :: xs, _, hall => by
    have ih := pyJoin_noWSEdges (y :: xs) (by simp)
      (fun z hz => hall z (List.mem_cons_of_mem x hz))
    have hx := hall x (by simp)
    rw [pyJoin_data_cons]
    constructor
    · intro hcontra
      have := congrArg List.length hcontra
      simp at this
    · exact noWSEdges_append_sep hx.2 hx.1 ih.2 ih.1

theorem pyStrip_pyJoin (xs : List String) (hne : xs ≠ [])
    (hall : ∀ x ∈ xs, x ≠ "" ∧ pyStrip x = x) :
    pyStrip (pyJoin " " xs) = pyJoin " " xs := by
  have hall2 : ∀ x ∈ xs, x.data ≠ [] ∧ noWSEdges x.data := by
    intro x hx
    obtain ⟨hx1, hx2⟩ := hall x hx
    constructor
    · intro hd
      apply hx1
      cases x with
      | mk d => cases hd; rfl
    · apply noWSEdges_of_trimL
      cases x with
      | mk d =>
        have : (pyStrip (String.mk d)).data = d := by rw [hx2]
        simpa [pyStrip] using this
  have h := pyJoin_noWSEdges xs hne hall2
  cases hj : pyJoin " " xs with
  | mk jd =>
    rw [hj] at h
    simp only [pyStrip]
    have := trimL_of_noWSEdges h.2
    simp only at this
    rw [this]

/-! ## Closed form of the chunk loop -/

theorem index_mul_lt_iff (D c : ℚ) (hc : 0 < c) (i : Nat) :
    (i : ℚ) * c < D ↔ i < ⌈D / c⌉₊ := by
  rw [Nat.lt_ceil, lt_div_iff₀ hc]

theorem voiceLoop_eq (env : Voice.VoiceEnv) (D c : ℚ) (hD : 0 < D) (hc : 0 < c) :
    ∀ n i, ⌈D / c⌉₊ ≤ n + i →
      Voice.voiceLoop env D c n i
        = (List.range (⌈D / c⌉₊ - i)).map (fun j =>
            ((((i + j : Nat) : ℚ) * c, min c (D - ((i + j : Nat) : ℚ) * c)),
             Voice.chunkAttempt env (i + j))) := by
  intro n
  induction n with
  | zero =>
    intro i hi
    simp only [Nat.zero_add] at hi
    rw [Nat.sub_eq_zero_of_le hi]
    simp [Voice.voiceLoop]
  | succ n ih =>
    intro i hi
    by_cases hbreak : D ≤ (i : ℚ) * c
    · have hki : ⌈D / c⌉₊ ≤ i := by
        by_contra hl
        push_neg at hl
        exact absurd ((index_mul_lt_iff D c hc i).2 hl) (not_lt.2 hbreak)
      rw [Nat.sub_eq_zero_of_le hki, Voice.voiceLoop.eq_def]
      simp [hbreak]
    · push_neg at hbreak
      have hik : i < ⌈D / c⌉₊ := (index_mul_lt_iff D c hc i).1 hbreak
      have hsub : ⌈D / c⌉₊ - i = (⌈D / c⌉₊ - (i + 1)) + 1 := by omega
      rw [Voice.voiceLoop.eq_def]
      simp only [if_neg (not_le.2 hbreak)]
      rw [ih (i + 1) (by omega), hsub, List.range_succ_eq_map]
      simp only [List.map_cons, List.map_map, Nat.add_zero, Function.comp]
      congr 1
      refine List.map_congr_left fun j hj => ?_
      have harg : (i + 1) + j = i + (j + 1) := by omega
      rw [harg]
      exact rfl

theorem chunkDurationOf_pos (S : Nat) (D : ℚ) (hS : 0 < S) (hD : 0 < D) :
    0 < Voice.chunkDurationOf S D := by
  have hSD : 0 < (S : ℚ) / D := div_pos (by exact_mod_cast hS) hD
  have h1 : 0 < ((Voice.maxSize : ℚ) * Voice.safetyMargin) / ((S : ℚ) / D) :=
    div_pos (by norm_num [Voice.maxSize, Voice.safetyMargin]) hSD
  simp only [Voice.chunkDurationOf]
  exact lt_min h1 (by norm_num [Voice.MAX_CHUNK_DURATION])

theorem numChunks_ge_ceil (D c : ℚ) (hD : 0 < D) (hc : 0 < c) :
    ⌈D / c⌉₊ ≤ Voice.numChunks D c := by
  have hx : (0 : ℚ) ≤ D / c := le_of_lt (div_pos hD hc)
  rw [Voice.numChunks, Int.floor_toNat, Nat.floor_add_one hx]
  exact Nat.ceil_le_floor_add_one _

theorem voiceEntries_eq (env : Voice.VoiceEnv) (S : Nat) (D : ℚ) (hS : 0 < S) (hD : 0 < D) :
    Voice.voiceEntries env S D
      = (List.range ⌈D / Voice.chunkDurationOf S D⌉₊).map (fun (j : Nat) =>
          (((j : ℚ) * Voice.chunkDurationOf S D,
            min (Voice.chunkDurationOf S D) (D - (j : ℚ) * Voice.chunkDurationOf S D)),
           Voice.chunkAttempt env j)) := by
  have hc := chunkDurationOf_pos S D hS hD
  have hD1 : ¬ D ≤ 0 := not_le.2 hD
  simp only [Voice.voiceEntries, Voice.effDuration, if_neg hD1]
  rw [voiceLoop_eq env D (Voice.chunkDurationOf S D) hD hc (Voice.numChunks D _) 0
    (by simpa using numChunks_ge_ceil D _ hD hc)]
  simp only [Nat.sub_zero, Nat.zero_add]

/-! ## Bridging lemmas for `transcribe_voice` -/

theorem transcribeVoice_chunked (env : Voice.VoiceEnv) (S : Nat) (D : ℚ) (hD : 0 < D)
    (hnot : ¬ (S ≤ Voice.maxSize ∧ D ≤ 30)) :
    Voice.transcribeVoice env S D
      = match Voice.chunkTexts env S D with
        | [] => .error "Не удалось распознать ни одну часть аудиофайла"
        | t :: ts => .ok (pyStrip (pyJoin " " (t :: ts))) := by
  have hD1 : ¬ D ≤ 0 := not_le.2 hD
  simp only [Voice.transcribeVoice, Voice.effDuration, if_neg hD1, if_neg hnot]
  rfl

theorem transcribeVoice_single (env : Voice.VoiceEnv) (S : Nat) (D : ℚ) (hD : 0 < D)
    (h1 : S ≤ Voice.maxSize) (h2 : D ≤ 30) :
    Voice.transcribeVoice env S D
      = match env.single with
        | .error e => .error e
        | .ok t =>
          if t = "" then .error "Не удалось распознать речь. Попробуйте записать сообщение еще раз."
          else .ok t := by
  have hD1 : ¬ D ≤ 0 := not_le.2 hD
  simp only [Voice.transcribeVoice, Voice.effDuration, if_neg hD1, if_pos (And.intro h1 h2)]

theorem chunkAttempt_some {env : Voice.VoiceEnv} {i : Nat} {t : String}
    (h : Voice.chunkAttempt env i = some t) :
    env.chunkText i = .ok t ∧ t ≠ "" := by
  unfold Voice.chunkAttempt at h
  cases hsplit : env.splitOk i with
  | false => rw [hsplit] at h; simp at h
  | true =>
    rw [hsplit] at h
    simp only [if_true] at h
    by_cases hsize : env.chunkSize i > Voice.maxSize
    · rw [if_pos hsize] at h; simp at h
    · rw [if_neg hsize] at h
      by_cases hdur : env.chunkDur i > 30
      · rw [if_pos hdur] at h; simp at h
      · rw [if_neg hdur] at h
        cases hct : env.chunkText i with
        | error e => simp [hct] at h
        | ok u =>
          simp only [hct] at h
          by_cases hu : u = ""
          · rw [if_pos hu] at h; simp at h
          · rw [if_neg hu] at h
            simp only [Option.some.injEq] at h
            subst h
            exact ⟨rfl, hu⟩

/-! ## Claim C3: transcription fails exactly when no chunk yields text -/

/-- C3. In the single-unit path (size and duration within limits) the run
returns the provider's recognized text when it is non-empty, raises the
transcription-failure error exactly when the recognized text is empty, and
propagates a provider error as is (which is also a run with zero non-empty
texts).  In the chunked path the run raises if and only if zero chunks
contributed a non-empty text, equivalently when every loop entry's
contribution is `none`; whenever at least one non-empty chunk text exists it
returns normally. -/
theorem c3_failure_iff (env : Voice.VoiceEnv) (S : Nat) (D : ℚ) (hD : 0 < D) :
    ((S ≤ Voice.maxSize ∧ D ≤ 30) →
      ((∀ t, env.single = .ok t → t ≠ "" → Voice.transcribeVoice env S D = .ok t) ∧
       (env.single = .ok "" →
         Voice.transcribeVoice env S D
           = .error "Не удалось распознать речь. Попробуйте записать сообщение еще раз.") ∧
       (∀ e, env.single = .error e → Voice.transcribeVoice env S D = .error e))) ∧
    ((Voice.maxSize < S ∨ 30 < D) →
      (((∃ m, Voice.transcribeVoice env S D = .error m) ↔ Voice.chunkTexts env S D = []) ∧
       (Voice.chunkTexts env S D = [] ↔ ∀ p ∈ Voice.voiceEntries env S D, p.2 = none) ∧
       (∀ t ts, Voice.chunkTexts env S D = t :: ts →
         Voice.transcribeVoice env S D = .ok (pyStrip (pyJoin " " (t :: ts)))))) := by
  constructor
  · rintro ⟨h1, h2⟩
    refine ⟨?_, ?_, ?_⟩
    · intro t ht hne
      rw [transcribeVoice_single env S D hD h1 h2, ht]
      simp [hne]
    · intro ht
      rw [transcribeVoice_single env S D hD h1 h2, ht]
      simp
    · intro e he
      rw [transcribeVoice_single env S D hD h1 h2, he]
  · intro hover
    have hnot : ¬ (S ≤ Voice.maxSize ∧ D ≤ 30) := by
      rcases hover with h | h
      · exact fun hx => absurd hx.1 (not_le.2 h)
      · exact fun hx => absurd hx.2 (not_le.2 h)
    have hsw := transcribeVoice_chunked env S D hD hnot
    refine ⟨?_, ?_, ?_⟩
    · cases hct : Voice.chunkTexts env S D with
      | nil =>
        rw [hct] at hsw
        exact ⟨fun _ => rfl, fun _ => ⟨_, hsw⟩⟩
      | cons t ts =>
        rw [hct] at hsw
        constructor
        · rintro ⟨m, hm⟩
          rw [hsw] at hm
          exact absurd hm (by simp)
        · intro h
          exact absurd h (by simp)
    · exact List.filterMap_eq_nil_iff
    · intro t ts hct
      rw [hsw, hct]

theorem chunkTexts_eq (env : Voice.VoiceEnv) (S : Nat) (D : ℚ) (hS : 0 < S) (hD : 0 < D) :
    Voice.chunkTexts env S D
      = (List.range ⌈D / Voice.chunkDurationOf S D⌉₊).filterMap (Voice.chunkAttempt env) := by
  rw [Voice.chunkTexts, voiceEntries_eq env S D hS hD, List.filterMap_map]
  rfl

theorem chunkDurationOf_fixture : Voice.chunkDurationOf 102400 60 = 25 := by
  have hle : (25 : ℚ) ≤ ((Voice.maxSize : ℚ) * Voice.safetyMargin) / ((102400 : ℚ) / 60) := by
    rw [Voice.maxSize, Voice.safetyMargin]
    norm_num
  simp only [Voice.chunkDurationOf, Voice.MAX_CHUNK_DURATION]
  exact min_eq_right hle

theorem numWindows_fixture : ⌈(60 : ℚ) / Voice.chunkDurationOf 102400 60⌉₊ = 3 := by
  rw [chunkDurationOf_fixture, Nat.ceil_eq_iff (by norm_num)]
  norm_num

theorem chunkTexts_envA : Voice.chunkTexts envA 102400 60 = ["раз", "три"] := by
  rw [chunkTexts_eq envA 102400 60 (by norm_num) (by norm_num), numWindows_fixture]
  decide

theorem chunkTexts_envFail : Voice.chunkTexts envFail 102400 60 = [] := by
  rw [chunkTexts_eq envFail 102400 60 (by norm_num) (by norm_num), numWindows_fixture]
  decide

/-- Witness for C3: the single path on a non-empty recognized text, and the
chunked path both on a run with survivors and on a run with none. -/
theorem c3_failure_iff_witness :
    ((1000 ≤ Voice.maxSize ∧ (5 : ℚ) ≤ 30) ∧
      envSingle.single = .ok "короткий текст" ∧
      Voice.transcribeVoice envSingle 1000 5 = .ok "короткий текст") ∧
    ((Voice.maxSize < 102400 ∨ (30 : ℚ) < 60) ∧
      Voice.chunkTexts envA 102400 60 = ["раз", "три"] ∧
      Voice.transcribeVoice envA 102400 60 = .ok (pyStrip (pyJoin " " ["раз", "три"])) ∧
      Voice.chunkTexts envFail 102400 60 = [] ∧
      ∃ m, Voice.transcribeVoice envFail 102400 60 = .error m) :=
  ⟨⟨⟨by norm_num [Voice.maxSize], by norm_num⟩, rfl,
    ((c3_failure_iff envSingle 1000 5 (by norm_num)).1
      ⟨by norm_num [Voice.maxSize], by norm_num⟩).1 "короткий текст" rfl (by decide)⟩,
   ⟨Or.inr (by norm_num),
    chunkTexts_envA,
    ((c3_failure_iff envA 102400 60 (by norm_num)).2 (Or.inr (by norm_num))).2.2
      "раз" ["три"] chunkTexts_envA,
    chunkTexts_envFail,
    ((c3_failure_iff envFail 102400 60 (by norm_num)).2 (Or.inr (by norm_num))).1.2
      chunkTexts_envFail⟩⟩

/-! ## Claim C4: the chunk windows partition [0, total_duration) -/

/-- C4. For every oversized clip (size over the limit or duration over 30 s)
with positive size and duration, the loop produces exactly
`⌈total_duration / chunk_duration⌉` windows; window `j` is
`[j * chunk_duration, j * chunk_duration + len j)` with
`len j = min chunk_duration (total - start)`; the windows start at `0`, are
consecutive (each full window ends where the next starts), the last ends at
`total_duration`, every window has positive length at most `chunk_duration`
(only the final one may be shorter), and together they cover
`[0, total_duration)` with no gaps and no overlaps. -/
theorem c4_partition (env : Voice.VoiceEnv) (S : Nat) (D : ℚ) (hS : 0 < S) (hD : 0 < D)
    (hover : Voice.maxSize < S ∨ 30 < D) :
    (Voice.windows env S D).length = ⌈D / Voice.chunkDurationOf S D⌉₊ ∧
    (∀ j, j < (Voice.windows env S D).length →
      (Voice.windows env S D)[j]? = some (Voice.winStart S D j, Voice.winLen S D j)) ∧
    Voice.winStart S D 0 = 0 ∧
    (∀ j, j + 1 < (Voice.windows env S D).length →
      Voice.winLen S D j = Voice.chunkDurationOf S D ∧
      Voice.winStart S D (j + 1) = Voice.winStart S D j + Voice.winLen S D j) ∧
    (∀ j, j + 1 = (Voice.windows env S D).length →
      Voice.winStart S D j + Voice.winLen S D j = D) ∧
    (∀ j, j < (Voice.windows env S D).length →
      0 < Voice.winLen S D j ∧ Voice.winLen S D j ≤ Voice.chunkDurationOf S D) ∧
    (∀ t : ℚ, (0 ≤ t ∧ t < D) ↔ ∃ j, j < (Voice.windows env S D).length ∧
      Voice.winStart S D j ≤ t ∧ t < Voice.winStart S D j + Voice.winLen S D j) ∧
    (∀ t : ℚ, ∀ j j', j < (Voice.windows env S D).length →
      j' < (Voice.windows env S D).length →
      Voice.winStart S D j ≤ t → t < Voice.winStart S D j + Voice.winLen S D j →
      Voice.winStart S D j' ≤ t → t < Voice.winStart S D j' + Voice.winLen S D j' →
      j = j') := by
  have hc : 0 < Voice.chunkDurationOf S D := chunkDurationOf_pos S D hS hD
  have hwin : Voice.windows env S D
      = (List.range ⌈D / Voice.chunkDurationOf S D⌉₊).map
          (fun (j : Nat) => ((j : ℚ) * Voice.chunkDurationOf S D,
            min (Voice.chunkDurationOf S D) (D - (j : ℚ) * Voice.chunkDurationOf S D))) := by
    rw [Voice.windows, voiceEntries_eq env S D hS hD, List.map_map]
    rfl
  have hlen : (Voice.windows env S D).length = ⌈D / Voice.chunkDurationOf S D⌉₊ := by
    rw [hwin]
    simp
  have hidx : ∀ j : Nat, (j : ℚ) * Voice.chunkDurationOf S D < D
      ↔ j < ⌈D / Voice.chunkDurationOf S D⌉₊ :=
    fun j => index_mul_lt_iff D (Voice.chunkDurationOf S D) hc j
  have hws : ∀ j : Nat, Voice.winStart S D j = (j : ℚ) * Voice.chunkDurationOf S D :=
    fun j => rfl
  have hwl : ∀ j : Nat, Voice.winLen S D j
      = min (Voice.chunkDurationOf S D) (D - (j : ℚ) * Voice.chunkDurationOf S D) :=
    fun j => rfl
  refine ⟨hlen, ?_, ?_, ?_, ?_, ?_, ?_, ?_⟩
  · intro j hj
    have hj2 : j < ⌈D / Voice.chunkDurationOf S D⌉₊ := hlen ▸ hj
    rw [hwin, List.getElem?_map, List.getElem?_range hj2]
    rfl
  · simp [Voice.winStart]
  · intro j hj
    have hj2 : j + 1 < ⌈D / Voice.chunkDurationOf S D⌉₊ := hlen ▸ hj
    have hlt : ((j + 1 : Nat) : ℚ) * Voice.chunkDurationOf S D < D := (hidx (j + 1)).2 hj2
    have hlt2 : (j : ℚ) * Voice.chunkDurationOf S D + Voice.chunkDurationOf S D < D := by
      push_cast at hlt
      linarith [hlt]
    have hmin : Voice.chunkDurationOf S D ≤ D - (j : ℚ) * Voice.chunkDurationOf S D := by
      linarith
    constructor
    · rw [hwl, min_eq_left hmin]
    · rw [hws, hws, hwl, min_eq_left hmin]
      push_cast
      ring
  · intro j hj
    rw [hlen] at hj
    have hjk : j < ⌈D / Voice.chunkDurationOf S D⌉₊ := by omega
    have h2 : (j : ℚ) * Voice.chunkDurationOf S D < D := (hidx j).2 hjk
    have h3 : ¬ ((j + 1 : Nat) : ℚ) * Voice.chunkDurationOf S D < D := by
      rw [hidx (j + 1)]
      omega
    push_neg at h3
    push_cast at h3
    have hmin : D - (j : ℚ) * Voice.chunkDurationOf S D ≤ Voice.chunkDurationOf S D := by
      linarith
    rw [hws, hwl, min_eq_right hmin]
    ring
  · intro j hj
    rw [hlen] at hj
    have h2 : (j : ℚ) * Voice.chunkDurationOf S D < D := (hidx j).2 hj
    constructor
    · rw [hwl]
      exact lt_min hc (by linarith)
    · rw [hwl]
      exact min_le_left _ _
  · intro t
    constructor
    · rintro ⟨ht0, htD⟩
      have htc0 : 0 ≤ t / Voice.chunkDurationOf S D := div_nonneg ht0 hc.le
      have hfl : ((⌊t / Voice.chunkDurationOf S D⌋₊ : Nat) : ℚ) ≤ t / Voice.chunkDurationOf S D :=
        Nat.floor_le htc0
      have hfl2 : t / Voice.chunkDurationOf S D < (⌊t / Voice.chunkDurationOf S D⌋₊ : ℚ) + 1 :=
        Nat.lt_floor_add_one _
      have hle : ((⌊t / Voice.chunkDurationOf S D⌋₊ : Nat) : ℚ) * Voice.chunkDurationOf S D ≤ t := by
        rw [← le_div_iff₀ hc]
        exact hfl
      have hlt : t < (((⌊t / Voice.chunkDurationOf S D⌋₊ : Nat) : ℚ) + 1)
          * Voice.chunkDurationOf S D := by
        rw [← div_lt_iff₀ hc]
        exact hfl2
      refine ⟨⌊t / Voice.chunkDurationOf S D⌋₊, ?_, ?_, ?_⟩
      · rw [hlen]
        exact (hidx _).1 (lt_of_le_of_lt hle htD)
      · rw [hws]
        exact hle
      · rw [hws, hwl]
        rcases le_total (Voice.chunkDurationOf S D)
            (D - ((⌊t / Voice.chunkDurationOf S D⌋₊ : Nat) : ℚ) * Voice.chunkDurationOf S D)
          with hmm | hmm
        · rw [min_eq_left hmm]
          nlinarith [hlt]
        · rw [min_eq_right hmm]
          linarith
    · rintro ⟨j, hjlen, hstart, hend⟩
      rw [hws] at hstart
      rw [hws, hwl] at hend
      have h0 : (0 : ℚ) ≤ (j : ℚ) * Voice.chunkDurationOf S D :=
        mul_nonneg (Nat.cast_nonneg j) hc.le
      have hmr : min (Voice.chunkDurationOf S D) (D - (j : ℚ) * Voice.chunkDurationOf S D)
          ≤ D - (j : ℚ) * Voice.chunkDurationOf S D := min_le_right _ _
      exact ⟨le_trans h0 hstart, by linarith⟩
  · intro t j j' hj hj' h1 h2 h3 h4
    rw [hws] at h1 h3
    rw [hws, hwl] at h2 h4
    have e1 : t < (j : ℚ) * Voice.chunkDurationOf S D + Voice.chunkDurationOf S D := by
      have := min_le_left (Voice.chunkDurationOf S D)
        (D - (j : ℚ) * Voice.chunkDurationOf S D)
      linarith
    have e2 : t < (j' : ℚ) * Voice.chunkDurationOf S D + Voice.chunkDurationOf S D := by
      have := min_le_left (Voice.chunkDurationOf S D)
        (D - (j' : ℚ) * Voice.chunkDurationOf S D)
      linarith
    have f1 : (j' : ℚ) * Voice.chunkDurationOf S D
        < ((j : ℚ) + 1) * Voice.chunkDurationOf S D := by
      nlinarith [h3, e1]
    have f2 : (j : ℚ) * Voice.chunkDurationOf S D
        < ((j' : ℚ) + 1) * Voice.chunkDurationOf S D := by
      nlinarith [h1, e2]
    have g1 : (j' : ℚ) < (j : ℚ) + 1 := lt_of_mul_lt_mul_right f1 hc.le
    have g2 : (j : ℚ) < (j' : ℚ) + 1 := lt_of_mul_lt_mul_right f2 hc.le
    have g1n : j' < j + 1 := by exact_mod_cast g1
    have g2n : j < j' + 1 := by exact_mod_cast g2
    omega

/-- Witness for C4 at a 60-second, 102400-byte clip (over the 30 s limit):
three windows, starting at 0 and ending at 60. -/
theorem c4_partition_witness :
    ((0 : Nat) < 102400 ∧ (0 : ℚ) < 60 ∧ (Voice.maxSize < 102400 ∨ (30 : ℚ) < 60)) ∧
    (Voice.windows envA 102400 60).length = ⌈(60 : ℚ) / Voice.chunkDurationOf 102400 60⌉₊ ∧
    (Voice.windows envA 102400 60).length = 3 ∧
    Voice.winStart 102400 60 0 = 0 ∧
    Voice.winStart 102400 60 2 + Voice.winLen 102400 60 2 = 60 :=
  ⟨⟨by norm_num, by norm_num, Or.inr (by norm_num)⟩,
   (c4_partition envA 102400 60 (by norm_num) (by norm_num) (Or.inr (by norm_num))).1,
   by rw [(c4_partition envA 102400 60 (by norm_num) (by norm_num) (Or.inr (by norm_num))).1,
     numWindows_fixture],
   (c4_partition envA 102400 60 (by norm_num) (by norm_num) (Or.inr (by norm_num))).2.2.1,
   (c4_partition envA 102400 60 (by norm_num) (by norm_num) (Or.inr (by norm_num))).2.2.2.2.1 2
     (by rw [(c4_partition envA 102400 60 (by norm_num) (by norm_num)
       (Or.inr (by norm_num))).1, numWindows_fixture])⟩

/-! ## Claim C5: the per-chunk duration formula -/

/-- C5. For every oversized clip with size `S > 0` and duration `D > 0`, the
per-chunk duration chosen before splitting equals
`min(max_chunk_duration_cap, (size_limit * safety_margin) / (S / D))`, where
the cap is 25 seconds, the size limit is the provider's hard 1 MiB limit and
the safety margin is the fixed factor 9/10 < 1. -/
theorem c5_chunk_duration (S : Nat) (D : ℚ) (hS : 0 < S) (hD : 0 < D)
    (hover : Voice.maxSize < S ∨ 30 < D) :
    Voice.chunkDurationOf S D
      = min Voice.MAX_CHUNK_DURATION
          (((Voice.maxSize : ℚ) * Voice.safetyMargin) / ((S : ℚ) / D)) ∧
    Voice.safetyMargin < 1 ∧ 0 < Voice.safetyMargin ∧
    Voice.MAX_CHUNK_DURATION = 25 ∧ (Voice.maxSize : ℚ) = 1024 * 1024 := by
  refine ⟨?_, by norm_num [Voice.safetyMargin], by norm_num [Voice.safetyMargin], rfl,
    by norm_num [Voice.maxSize]⟩
  simp only [Voice.chunkDurationOf]
  exact min_comm _ _

/-- Witness for C5 at a 2 MiB, 40-second clip (over the size limit). -/
theorem c5_chunk_duration_witness :
    ((0 : Nat) < 2097152 ∧ (0 : ℚ) < 40 ∧ (Voice.maxSize < 2097152 ∨ (30 : ℚ) < 40)) ∧
    (Voice.chunkDurationOf 2097152 40
        = min Voice.MAX_CHUNK_DURATION
            (((Voice.maxSize : ℚ) * Voice.safetyMargin) / ((2097152 : ℚ) / 40)) ∧
      Voice.safetyMargin < 1 ∧ 0 < Voice.safetyMargin ∧
      Voice.MAX_CHUNK_DURATION = 25 ∧ (Voice.maxSize : ℚ) = 1024 * 1024) :=
  ⟨⟨by norm_num, by norm_num, Or.inl (by norm_num [Voice.maxSize])⟩,
   by
    have h := c5_chunk_duration 2097152 40 (by norm_num) (by norm_num)
      (Or.inl (by norm_num [Voice.maxSize]))
    exact_mod_cast h⟩

/-! ## Claim C6: chunk independence and space-joined concatenation -/

/-- C6. In every chunked run, every window index below
`⌈total / chunk_duration⌉` is attempted and contributes independently —
the run's entry at index `j` is a function of the environment at `j` alone,
so a failing chunk never prevents its neighbours from being attempted — and
the final result is exactly the non-empty texts of the successful chunks, in
chunk-index order, joined with single spaces (the trailing `.strip()` is the
identity because every chunk text is already stripped, which the `htrim`
hypothesis states, reflecting that `_transcribe_chunk` returns stripped
text). -/
theorem c6_chunk_independence (env : Voice.VoiceEnv) (S : Nat) (D : ℚ) (hS : 0 < S)
    (hD : 0 < D) (hover : Voice.maxSize < S ∨ 30 < D)
    (htrim : ∀ i t, env.chunkText i = .ok t → pyStrip t = t) :
    Voice.voiceEntries env S D
      = (List.range ⌈D / Voice.chunkDurationOf S D⌉₊).map
          (fun (j : Nat) => ((Voice.winStart S D j, Voice.winLen S D j),
            Voice.chunkAttempt env j)) ∧
    Voice.chunkTexts env S D
      = (List.range ⌈D / Voice.chunkDurationOf S D⌉₊).filterMap (Voice.chunkAttempt env) ∧
    (∀ t ts, Voice.chunkTexts env S D = t :: ts →
      Voice.transcribeVoice env S D = .ok (pyJoin " " (t :: ts))) := by
  have hnot : ¬ (S ≤ Voice.maxSize ∧ D ≤ 30) := by
    rcases hover with h | h
    · exact fun hx => absurd hx.1 (not_le.2 h)
    · exact fun hx => absurd hx.2 (not_le.2 h)
  refine ⟨voiceEntries_eq env S D hS hD, chunkTexts_eq env S D hS hD, ?_⟩
  intro t ts hct
  have hct2 : (List.range ⌈D / Voice.chunkDurationOf S D⌉₊).filterMap (Voice.chunkAttempt env)
      = t :: ts := by
    rw [← chunkTexts_eq env S D hS hD]
    exact hct
  have hmem : ∀ x ∈ t :: ts, x ≠ "" ∧ pyStrip x = x := by
    intro x hx
    rw [← hct2] at hx
    obtain ⟨i, hi, hsome⟩ := List.mem_filterMap.1 hx
    obtain ⟨hok, hne⟩ := chunkAttempt_some hsome
    exact ⟨hne, htrim i x hok⟩
  rw [transcribeVoice_chunked env S D hD hnot, hct]
  show Except.ok (pyStrip (pyJoin " " (t :: ts))) = Except.ok (pyJoin " " (t :: ts))
  rw [pyStrip_pyJoin (t :: ts) (by simp) hmem]

/-- Witness for C6 on the three-chunk run where chunk 1 fails: chunks 0 and 2
are still attempted and the result is their texts joined by one space. -/
theorem c6_chunk_independence_witness :
    ((0 : Nat) < 102400 ∧ (0 : ℚ) < 60 ∧ (Voice.maxSize < 102400 ∨ (30 : ℚ) < 60) ∧
      (∀ i t, envA.chunkText i = .ok t → pyStrip t = t) ∧
      Voice.chunkAttempt envA 1 = none ∧
      Voice.chunkTexts envA 102400 60 = ["раз", "три"]) ∧
    Voice.transcribeVoice envA 102400 60 = .ok (pyJoin " " ["раз", "три"]) ∧
    pyJoin " " ["раз", "три"] = "раз три" := by
  have htrim : ∀ i t, envA.chunkText i = .ok t → pyStrip t = t := by
    intro i t h
    by_cases h1 : i = 1
    · simp [envA, h1] at h
    · by_cases h0 : i = 0
      · simp [envA, h1, h0] at h
        rw [← h]
        decide
      · simp [envA, h1, h0] at h
        rw [← h]
        decide
  refine ⟨⟨by norm_num, by norm_num, Or.inr (by norm_num), htrim, by decide, chunkTexts_envA⟩,
    ?_, by decide⟩
  exact (c6_chunk_independence envA 102400 60 (by norm_num) (by norm_num)
    (Or.inr (by norm_num)) htrim).2.2 "раз" ["три"] chunkTexts_envA
